import Mathlib

/-!
Verification of the command-dispatch layer in enhanced_discord.js:
the argument tokenizer (Bot._parseArgs), the Command class (constructor
with name/usage fallback, check chain) and the dispatcher
(Bot._commandHandler) with its error routing.

JavaScript strings are modelled as Lean String values; the JS string
operations used by the source (split(" "), join(" "), slice, replace of
the first occurrence, includes(" "), startsWith) are given explicit
executable models over the character list. Functions that may throw are
modelled in Except; the dispatcher additionally records a trace of the
handler and error-handler invocations it performs, so that claims about
"exactly once" and "never invoked" can be stated.
-/

set_option maxHeartbeats 1000000

namespace ED

/-- A thrown JS error, identified by its message. -/
structure JSError where
  message : String
deriving DecidableEq, Repr

/-- The author of a message: a bot flag and an identifier. -/
structure Author where
  bot : Bool
  id : String
deriving DecidableEq, Repr

/-- An incoming message: author plus raw textual content. -/
structure Message where
  author : Author
  content : String
deriving DecidableEq, Repr

/-- A check predicate: receives the message, returns a boolean or throws. -/
abbrev Check := Message → Except JSError Bool

/-- A JS function value as the Command constructor sees it: its .name,
its .toString() source text, and its callable behaviour (the handler
receives the message and the spread argument tokens; it may throw). -/
structure JSFun where
  name : String
  source : String
  fn : Message → List String → Except JSError Unit

/-- Models str.split(" ") of JS: split on every single space, keeping
empty pieces; the empty string yields one empty piece. -/
def splitSpaceAux : List Char → String → List String
  | [], buf => [buf]
  | c :: rest, buf =>
    if c = ' ' then buf :: splitSpaceAux rest ""
    else splitSpaceAux rest (buf.push c)

/-- str.split(" ") on a String. -/
def splitSpace (s : String) : List String :=
  splitSpaceAux s.data ""

/-- Models arr.join(" ") of JS. -/
def joinSpace : List String → String
  | [] => ""
  | [s] => s
  | s :: rest => s ++ " " ++ joinSpace rest

/-- Does pat occur at the head of cs? (used to model JS replace and startsWith). -/
def matchesAt : List Char → List Char → Bool
  | [], _ => true
  | _ :: _, [] => false
  | p :: ps, c :: cs => p == c && matchesAt ps cs

/-- Models str.replace(pat, "") of JS with a string pattern: remove the
first occurrence of pat, leave the string unchanged when absent. -/
def replaceFirstList (cs pat : List Char) : List Char :=
  match cs with
  | [] => []
  | c :: rest =>
    if matchesAt pat (c :: rest) then (c :: rest).drop pat.length
    else c :: replaceFirstList rest pat

/-- str.replace(pat, "") on Strings. -/
def replaceFirst (s pat : String) : String :=
  String.mk (replaceFirstList s.data pat.data)

/-- Models str.startsWith(pat) of JS. -/
def startsWithStr (s pat : String) : Bool :=
  matchesAt pat.data s.data

/-- Models str.includes(" ") of JS. -/
def containsSpace (s : String) : Bool :=
  s.data.any (fun c => c == ' ')

/-- The scanner state of the tokenizer loop in Bot._parseArgs: the
tokens pushed so far, the current buffer, and the inQuote/escaped flags.
The ready flag of the source is set and consumed within one iteration,
so it is handled inside the step function. -/
structure ScanState where
  argArr : List String
  buffer : String
  inQuote : Bool
  escaped : Bool
deriving DecidableEq, Repr

/-- One iteration of the character loop of Bot._parseArgs. The two
branches that set ready (closing quote, space outside quotes) push the
buffer when it is non-empty and clear it. -/
def scanStep (s : ScanState) (c : Char) : ScanState :=
  if s.escaped then
    { s with buffer := s.buffer.push c, escaped := false }
  else if c = '"' then
    if s.inQuote then
      { s with argArr := if s.buffer = "" then s.argArr else s.argArr ++ [s.buffer],
               buffer := "", inQuote := false }
    else
      { s with inQuote := true }
  else if c = ' ' ∧ s.inQuote = false then
    { s with argArr := if s.buffer = "" then s.argArr else s.argArr ++ [s.buffer],
             buffer := "" }
  else if c = '\\' then
    { s with escaped := true }
  else
    { s with buffer := s.buffer.push c }

/-- The initial scanner state. -/
def initState : ScanState := ⟨[], "", false, false⟩

/-- Run the scanner loop of Bot._parseArgs over the argument remainder. -/
def scanString (argStr : String) : ScanState :=
  argStr.data.foldl scanStep initState

/-- The tokenizer: the scanner loop followed by the final flush of a
non-empty buffer (the body of Bot._parseArgs after the remainder has
been computed). -/
def tokenize (argStr : String) : List String :=
  let s := scanString argStr
  if s.buffer = "" then s.argArr else s.argArr ++ [s.buffer]

/-- str.split(" ").slice(1).join(" "): the content after the verb. -/
def remainderAfterVerb (str : String) : String :=
  joinSpace ((splitSpace str).drop 1)

/-- A registered command: name, usage text, ordered check list and the
wrapped handler function. -/
structure Command where
  name : String
  usage : String
  checks : List Check
  commandFunction : JSFun

/-- The check loop shared by Command.performChecks and the global check
loop of Bot._commandHandler: run the predicates in order, stop with
false at the first false, propagate a thrown error, true otherwise. -/
def runChecks : List Check → Message → Except JSError Bool
  | [], _ => Except.ok true
  | c :: rest, msg =>
    match c msg with
    | Except.error e => Except.error e
    | Except.ok false => Except.ok false
    | Except.ok true => runChecks rest msg

/-- Command.performChecks: all checks pass, in registration order,
short-circuiting at the first failure. -/
def Command.performChecks (cmd : Command) (msg : Message) : Except JSError Bool :=
  runChecks cmd.checks msg

/-- The index scan of Command._parseArgs: walk funct.toString(), record
the index of the first opening parenthesis in start (start stays 0,
meaning unset, when the parenthesis sits at index 0, as in the source,
where start is tested for truthiness), and stop at the first closing
parenthesis seen while start is non-zero; stop stays 0 when the loop
never breaks. -/
def scanSig : List Char → Nat → Nat → Nat × Nat
  | [], _, start => (start, 0)
  | c :: rest, idx, start =>
    let start' := if start = 0 ∧ c = '(' then idx else start
    if start' ≠ 0 ∧ c = ')' then (start', idx)
    else scanSig rest (idx + 1) start'

/-- Command._parseArgs: slice the text between the parentheses, delete
every space, turn commas into spaces, then drop the first character
(the source computes args.slice(1) on the string). -/
def Command._parseArgs (sig : String) : String :=
  let cs := sig.data
  let p := scanSig cs 0 0
  let sliced := (cs.take p.2).drop (p.1 + 1)
  let noSpaces := sliced.filter (fun c => c != ' ')
  let args := noSpaces.map (fun c => if c = ',' then ' ' else c)
  String.mk (args.drop 1)

/-- The Command constructor: a missing, empty or space-containing name
falls back to the function's own name; a missing or empty usage is
derived from the function's source text; checks default to the empty
list. (The source throws when the function itself is absent; here the
function argument is always present.) -/
def Command.construct (commandFunction : JSFun) (name : Option String)
    (usage : Option String) (checks : Option (List Check)) : Command :=
  let n := match name with
    | none => commandFunction.name
    | some s => if s = "" ∨ containsSpace s then commandFunction.name else s
  let u := match usage with
    | none => Command._parseArgs commandFunction.source
    | some s => if s = "" then Command._parseArgs commandFunction.source else s
  { name := n, usage := u, checks := checks.getD [], commandFunction := commandFunction }

/-- The default error handler: re-throw the error unchanged. -/
def defaultErrorHandler : Message → JSError → Except JSError Unit :=
  fun _ error => Except.error error

/-- The bot state the dispatcher reads: error handler, command registry,
global checks and the prefix string. -/
structure Bot where
  errorHandler : Message → JSError → Except JSError Unit
  commands : List Command
  checks : List Check
  pfx : String

/-- An observable action of the dispatcher: a handler invocation
(command name, message, spread argument tokens) or an error-handler
invocation (message, thrown error). -/
inductive Event where
  | invoked (name : String) (message : Message) (args : List String)
  | errorHandled (message : Message) (error : JSError)
deriving DecidableEq, Repr

/-- The command loop of Bot._commandHandler over the registry: a command
whose name matches and whose checks return true is invoked; a handler
error is caught and routed to the error handler; an error thrown by a
per-command check, or by the error handler itself, propagates and ends
the loop. Returns the recorded events and the propagated error, if any. -/
def runCommands (eh : Message → JSError → Except JSError Unit) (msg : Message)
    (name : String) (args : List String) :
    List Command → List Event → List Event × Option JSError
  | [], acc => (acc, none)
  | cmd :: rest, acc =>
    if cmd.name = name then
      match cmd.performChecks msg with
      | Except.error e => (acc, some e)
      | Except.ok false => runCommands eh msg name args rest acc
      | Except.ok true =>
        match cmd.commandFunction.fn msg args with
        | Except.ok _ =>
            runCommands eh msg name args rest (acc ++ [Event.invoked cmd.name msg args])
        | Except.error e =>
            match eh msg e with
            | Except.ok _ =>
                runCommands eh msg name args rest
                  (acc ++ [Event.invoked cmd.name msg args, Event.errorHandled msg e])
            | Except.error e2 =>
                (acc ++ [Event.invoked cmd.name msg args, Event.errorHandled msg e], some e2)
    else runCommands eh msg name args rest acc

/-- The verb: message.content.split(" ")[0].replace(prefix, ""). -/
def parsedVerb (pfx content : String) : String :=
  replaceFirst ((splitSpace content).headD "") pfx

/-- Bot._parseArgs: drop the first space-delimited word, rejoin, tokenize. -/
def Bot._parseArgs (str : String) : List String :=
  tokenize (remainderAfterVerb str)

/-- Bot._commandHandler: extract verb and arguments, run the global
checks (a false result returns silently, a thrown error propagates),
then run the command loop. -/
def Bot._commandHandler (bot : Bot) (msg : Message) : List Event × Option JSError :=
  let name := parsedVerb bot.pfx msg.content
  let args := Bot._parseArgs msg.content
  match runChecks bot.checks msg with
  | Except.error e => ([], some e)
  | Except.ok false => ([], none)
  | Except.ok true => runCommands bot.errorHandler msg name args bot.commands []

/-- Bot.on_message: ignore messages from bots and messages that do not
start with the prefix; dispatch the rest. -/
def Bot.on_message (bot : Bot) (msg : Message) : List Event × Option JSError :=
  if msg.author.bot = false ∧ startsWithStr msg.content bot.pfx then
    Bot._commandHandler bot msg
  else ([], none)

/-- Did the checks of cmd return true on msg? -/
def checksPass (cmd : Command) (msg : Message) : Bool :=
  match cmd.performChecks msg with
  | Except.ok true => true
  | _ => false

/-- Is this event a handler invocation? -/
def isInvoked : Event → Bool
  | Event.invoked _ _ _ => true
  | _ => false

/-- A sample incoming message invoking the ping command with one argument. -/
def msgW : Message := ⟨⟨false, "user"⟩, "$ping x"⟩

/-- A handler that always succeeds. -/
def fnPing : JSFun := ⟨"ping", "function ping(msg)\x7b\x7d", fun _ _ => Except.ok ()⟩

/-- A handler that always throws. -/
def fnBoom : JSFun := ⟨"boom", "function boom(msg)\x7b\x7d", fun _ _ => Except.error ⟨"boom"⟩⟩

/-- A handler whose own JS name contains a space (as a bound function's
name does: binding prepends the five characters of the word bound and a
space to the name). -/
def fnSpacey : JSFun := ⟨"bound f", "function ()\x7b\x7d", fun _ _ => Except.ok ()⟩

/-- The hidden handler of the example bot script (body elided: only the
text up to the first closing parenthesis matters to the scan). -/
def hiddenFun : JSFun := ⟨"hidden", "async function hidden(msg, arg1)\x7b\x7d", fun _ _ => Except.ok ()⟩

/-- A check that returns true. -/
def chkTrue : Check := fun _ => Except.ok true

/-- A check that returns false. -/
def chkFalse : Check := fun _ => Except.ok false

/-- A check that throws. -/
def chkThrow : Check := fun _ => Except.error ⟨"denied"⟩

/-- A command named ping with a throwing handler. -/
def cmdBoom : Command := ⟨"ping", "", [], fnBoom⟩

/-- A command named ping with a succeeding handler. -/
def cmdPing : Command := ⟨"ping", "", [], fnPing⟩

/-- A second command also named ping. -/
def cmdPing2 : Command := ⟨"ping", "usage2", [], fnPing⟩

/-- A command whose second check returns false and whose third throws. -/
def cmdChecks : Command := ⟨"ping", "", [chkTrue, chkFalse, chkThrow], fnPing⟩

/-- A bot whose only command has a throwing handler. -/
def botBoom : Bot := ⟨defaultErrorHandler, [cmdBoom], [], "$"⟩

/-- A bot with a throwing global check. -/
def botGThrow : Bot := ⟨defaultErrorHandler, [cmdPing], [chkThrow], "$"⟩

/-- A bot with two commands that share the name ping. -/
def botDup : Bot := ⟨defaultErrorHandler, [cmdPing, cmdPing2], [], "$"⟩

/-- String append acts as list append on the character data. -/
theorem data_append (s t : String) : (s ++ t).data = s.data ++ t.data := by
  cases s; cases t; rfl

/-- Checks in front that all return true do not change the outcome of
the check loop. -/
theorem runChecks_prepend_true (msg : Message) :
    ∀ (pre rest : List Check), (∀ c ∈ pre, c msg = Except.ok true) →
      runChecks (pre ++ rest) msg = runChecks rest msg := by
  intro pre
  induction pre with
  | nil => intro rest _; rfl
  | cons c pre' ih =>
    intro rest h
    have hc : c msg = Except.ok true := h c (by simp)
    have h' : ∀ c' ∈ pre', c' msg = Except.ok true := fun c' hc' => h c' (by simp [hc'])
    simp only [List.cons_append, runChecks, hc]
    exact ih rest h'

/-- A check list whose members all return true passes as a whole. -/
theorem runChecks_all_true (msg : Message) (l : List Check)
    (h : ∀ c ∈ l, c msg = Except.ok true) : runChecks l msg = Except.ok true := by
  have := runChecks_prepend_true msg l [] h
  simpa using this

/-- An unconsumed escape appends the next character, whatever it is,
and clears the escape state. -/
theorem scanStep_escaped (s : ScanState) (c : Char) (h : s.escaped = true) :
    scanStep s c = { s with buffer := s.buffer.push c, escaped := false } := by
  obtain ⟨ar, bu, q, e⟩ := s
  subst h
  rfl

/-- A backslash seen outside an escape only sets the escape state. -/
theorem scanStep_backslash (s : ScanState) (h : s.escaped = false) :
    scanStep s '\\' = { s with escaped := true } := by
  obtain ⟨ar, bu, q, e⟩ := s
  subst h
  rfl

/-- One scanner step never pushes an empty token. -/
theorem scanStep_inv (s : ScanState) (c : Char)
    (h : ∀ t ∈ s.argArr, t ≠ "") : ∀ t ∈ (scanStep s c).argArr, t ≠ "" := by
  intro t ht
  obtain ⟨ar, bu, q, e⟩ := s
  simp only [scanStep] at ht
  split at ht
  · exact h t ht
  · split at ht
    · split at ht
      · simp only at ht
        split at ht
        · exact h t ht
        · rcases List.mem_append.mp ht with hmem | hmem
          · exact h t hmem
          · rw [List.mem_singleton] at hmem
            subst hmem
            simp_all
      · exact h t ht
    · split at ht
      · simp only at ht
        split at ht
        · exact h t ht
        · rcases List.mem_append.mp ht with hmem | hmem
          · exact h t hmem
          · rw [List.mem_singleton] at hmem
            subst hmem
            simp_all
      · split at ht
        · exact h t ht
        · exact h t ht

/-- No state reached by the scanner loop holds an empty token. -/
theorem scanFold_inv (cs : List Char) :
    ∀ s : ScanState, (∀ t ∈ s.argArr, t ≠ "") →
      ∀ t ∈ (cs.foldl scanStep s).argArr, t ≠ "" := by
  induction cs with
  | nil => intro s h; exact h
  | cons c rest ih =>
    intro s h
    exact ih (scanStep s c) (scanStep_inv s c h)

/-- Every token the tokenizer emits is non-empty. -/
theorem tokenize_nonempty (arg : String) : ∀ t ∈ tokenize arg, t ≠ "" := by
  intro t ht
  have hscan : ∀ t ∈ (scanString arg).argArr, t ≠ "" :=
    scanFold_inv arg.data initState (by simp [initState])
  simp only [tokenize] at ht
  split at ht
  · exact hscan t ht
  · rcases List.mem_append.mp ht with hmem | hmem
    · exact hscan t hmem
    · rw [List.mem_singleton] at hmem
      subst hmem
      assumption

/-- A trailing backslash that does not complete an escape pair leaves
the emitted tokens unchanged. -/
theorem tokenize_trailing_backslash (t : String)
    (h : (scanString t).escaped = false) : tokenize (t ++ "\\") = tokenize t := by
  have hscan : scanString (t ++ "\\") = scanStep (scanString t) '\\' := by
    unfold scanString
    rw [data_append, List.foldl_append]
    rfl
  simp only [tokenize, hscan, scanStep_backslash (scanString t) h]

/-- Claim C1: the tokenizer splits on spaces outside quotes and keeps a
double-quoted region as one token: the remainder a b c gives three
tokens and the quoted region b c stays one token; a closing quote
flushes a non-empty buffer even with no space after it, while an
opening quote leaves the token list unchanged. -/
theorem C1 :
    tokenize "a b c" = ["a", "b", "c"] ∧
    tokenize "a \"b c\" d" = ["a", "b c", "d"] ∧
    (∀ s : ScanState, s.escaped = false → s.inQuote = true → s.buffer ≠ "" →
      (scanStep s '"').argArr = s.argArr ++ [s.buffer] ∧
      (scanStep s '"').buffer = "" ∧ (scanStep s '"').inQuote = false) ∧
    (∀ s : ScanState, s.escaped = false → s.inQuote = false →
      scanStep s '"' = { s with inQuote := true }) := by
  refine ⟨by decide, by decide, ?_, ?_⟩
  · intro s h1 h2 h3
    obtain ⟨ar, bu, q, e⟩ := s
    simp only at h1 h2 h3
    subst h1; subst h2
    refine ⟨?_, ?_, ?_⟩ <;> simp [scanStep, h3]
  · intro s h1 h2
    obtain ⟨ar, bu, q, e⟩ := s
    simp only at h1 h2
    subst h1; subst h2
    rfl

/-- Witness for C1: closing a quote over buffer x with one finished
token pushes x as a completed token. -/
theorem C1_witness :
    (scanStep ⟨["t"], "x", true, false⟩ '"').argArr = ["t"] ++ ["x"] :=
  (C1.2.2.1 ⟨["t"], "x", true, false⟩ rfl rfl (by decide)).1

/-- Claim C2: a character after an unconsumed backslash is appended
literally whatever it is (so an escaped space does not split and an
escaped quote does not toggle), the backslash itself is never appended,
and a trailing unmatched backslash is dropped silently. -/
theorem C2 :
    (∀ (s : ScanState) (c : Char), s.escaped = true →
      scanStep s c = { s with buffer := s.buffer.push c, escaped := false }) ∧
    tokenize "a\\ b" = ["a b"] ∧
    tokenize "\\\"quoted\\\"" = ["\"quoted\""] ∧
    (∀ s : ScanState, s.escaped = false →
      (scanStep s '\\').buffer = s.buffer ∧ (scanStep s '\\').argArr = s.argArr) ∧
    (∀ t : String, (scanString t).escaped = false → tokenize (t ++ "\\") = tokenize t) := by
  refine ⟨scanStep_escaped, by decide, by decide, ?_, tokenize_trailing_backslash⟩
  intro s h
  rw [scanStep_backslash s h]
  exact ⟨rfl, rfl⟩

/-- Witness for C2: a remainder that ends in a lone backslash tokenizes
exactly as without it. -/
theorem C2_witness : tokenize ("a" ++ "\\") = tokenize "a" :=
  C2.2.2.2.2 "a" (by decide)

/-- Claim C9: tokenizer edge cases: empty remainder gives the empty
sequence, a double space produces no empty token, and an unterminated
opening quote still flushes the buffered content at end-of-string. -/
theorem C9 :
    tokenize "" = [] ∧ tokenize "a  b" = ["a", "b"] ∧
    tokenize "\"unterminated" = ["unterminated"] :=
  ⟨by decide, by decide, by decide⟩

/-- Claim C10: every emitted token is non-empty, both for the scanner
over the remainder and for Bot._parseArgs on the full content; an empty
quoted pair and a run of delimiters contribute no token. -/
theorem C10 :
    (∀ (arg : String) (t : String), t ∈ tokenize arg → t ≠ "") ∧
    (∀ (str : String) (t : String), t ∈ Bot._parseArgs str → t ≠ "") ∧
    tokenize "\"\"" = [] ∧ tokenize "   " = [] :=
  ⟨fun arg t ht => tokenize_nonempty arg t ht,
   fun _ t ht => tokenize_nonempty _ t ht, by decide, by decide⟩

/-- Witness for C10: the token a of the remainder a is non-empty. -/
theorem C10_witness : ("a" : String) ≠ "" := C10.1 "a" "a" (by decide)

/-- Claim C7: performChecks runs the predicates in registration order,
returns false at the first false predicate with the later predicates
never evaluated (the conclusion holds for every tail, including one
that would throw), and returns true on an empty or all-passing list. -/
theorem C7 :
    (∀ (cmd : Command) (msg : Message), cmd.checks = [] →
      cmd.performChecks msg = Except.ok true) ∧
    (∀ (cmd : Command) (msg : Message) (pre post : List Check) (c : Check),
      cmd.checks = pre ++ c :: post →
      (∀ c' ∈ pre, c' msg = Except.ok true) →
      c msg = Except.ok false →
      cmd.performChecks msg = Except.ok false) ∧
    (∀ (cmd : Command) (msg : Message),
      (∀ c ∈ cmd.checks, c msg = Except.ok true) →
      cmd.performChecks msg = Except.ok true) := by
  refine ⟨?_, ?_, ?_⟩
  · intro cmd msg h
    simp [Command.performChecks, h, runChecks]
  · intro cmd msg pre post c hch hpre hc
    simp only [Command.performChecks, hch]
    rw [runChecks_prepend_true msg pre (c :: post) hpre]
    simp [runChecks, hc]
  · intro cmd msg h
    exact runChecks_all_true msg cmd.checks h

/-- Witness for C7: with checks [true, false, throwing] the chain stops
at the second check with false and the throwing third is never run. -/
theorem C7_witness : cmdChecks.performChecks msgW = Except.ok false :=
  C7.2.1 cmdChecks msgW [chkTrue] [chkThrow] chkFalse rfl
    (by intro c' hc'; rw [List.mem_singleton] at hc'; subst hc'; rfl) rfl

/-- Counterexample to C8 as stated: the fallback name is not itself
validated, so a handler whose own JS name holds a space (for example a
bound function) yields a Command name with a space even though the
explicit name was rejected. -/
theorem C8_counterexample :
    containsSpace (Command.construct fnSpacey (some "x y") none none).name = true := by
  decide

/-- Claim C8 (amended): an explicit name that is empty or contains a
space is rejected in favor of the handler function's own name, and the
constructed name is space-free provided the handler's own name is
space-free (the fallback itself is not validated). -/
theorem C8_amended :
    (∀ (f : JSFun) (n : String) (u : Option String) (ch : Option (List Check)),
      (n = "" ∨ containsSpace n = true) →
      (Command.construct f (some n) u ch).name = f.name) ∧
    (∀ (f : JSFun) (u : Option String) (ch : Option (List Check)),
      (Command.construct f none u ch).name = f.name) ∧
    (∀ (f : JSFun) (n : Option String) (u : Option String) (ch : Option (List Check)),
      containsSpace f.name = false →
      containsSpace (Command.construct f n u ch).name = false) := by
  refine ⟨?_, ?_, ?_⟩
  · intro f n u ch h
    simp only [Command.construct]
    rw [if_pos h]
  · intro f u ch
    rfl
  · intro f n u ch h
    cases n with
    | none => exact h
    | some s =>
      simp only [Command.construct]
      by_cases hcond : s = "" ∨ containsSpace s = true
      · rw [if_pos hcond]; exact h
      · rw [if_neg hcond]
        cases hb : containsSpace s with
        | false => rfl
        | true => exact absurd (Or.inr hb) hcond

/-- Witness for C8: the explicit name x y contains a space and is
replaced by the handler's own name. -/
theorem C8_witness :
    (Command.construct fnPing (some "x y") none none).name = fnPing.name :=
  C8_amended.1 fnPing "x y" none none (Or.inr (by decide))

/-- Claim C3 evaluated on the code: for the handler declared with
parameters (msg, arg1) the derived usage is sg arg1, not arg1: the
source computes args.slice(1) on the joined string, which drops one
character instead of the whole first parameter name. -/
theorem C3_usage_eval :
    (Command.construct hiddenFun none none none).usage = "sg arg1" ∧
    (Command.construct hiddenFun none none none).usage ≠ "arg1" :=
  ⟨by decide, by decide⟩

/-- When a front segment of the registry runs without a propagated
error, the loop continues on the tail from the recorded events. -/
theorem runCommands_append_of_none (eh : Message → JSError → Except JSError Unit)
    (msg : Message) (name : String) (args : List String) :
    ∀ (pre : List Command) (acc : List Event) (suf : List Command),
      (runCommands eh msg name args pre acc).2 = none →
      runCommands eh msg name args (pre ++ suf) acc =
        runCommands eh msg name args suf (runCommands eh msg name args pre acc).1 := by
  intro pre
  induction pre with
  | nil => intro acc suf _; rfl
  | cons cmd pre' ih =>
    intro acc suf h
    by_cases hname : cmd.name = name
    · cases hpc : cmd.performChecks msg with
      | error e =>
        simp only [runCommands, if_pos hname, hpc] at h
        simp at h
      | ok b =>
        cases b with
        | false =>
          simp only [List.cons_append, runCommands, if_pos hname, hpc] at h ⊢
          exact ih acc suf h
        | true =>
          cases hfn : cmd.commandFunction.fn msg args with
          | ok u =>
            simp only [List.cons_append, runCommands, if_pos hname, hpc, hfn] at h ⊢
            exact ih _ suf h
          | error e =>
            cases heh : eh msg e with
            | ok u =>
              simp only [List.cons_append, runCommands, if_pos hname, hpc, hfn, heh] at h ⊢
              exact ih _ suf h
            | error e2 =>
              simp only [runCommands, if_pos hname, hpc, hfn, heh] at h
              simp at h
    · simp only [List.cons_append, runCommands, if_neg hname] at h ⊢
      exact ih acc suf h

/-- When the command loop ends without a propagated error, its recorded
handler invocations are exactly one per matching command (name equal to
the verb, checks returning true), in registration order. -/
theorem runCommands_invocations (eh : Message → JSError → Except JSError Unit)
    (msg : Message) (name : String) (args : List String) :
    ∀ (cmds : List Command) (acc : List Event),
      (runCommands eh msg name args cmds acc).2 = none →
      (runCommands eh msg name args cmds acc).1.filter isInvoked =
        acc.filter isInvoked ++
          (cmds.filter (fun c => decide (c.name = name) && checksPass c msg)).map
            (fun c => Event.invoked c.name msg args) := by
  intro cmds
  induction cmds with
  | nil => intro acc _; simp [runCommands]
  | cons cmd rest ih =>
    intro acc h
    by_cases hname : cmd.name = name
    · cases hpc : cmd.performChecks msg with
      | error e =>
        simp only [runCommands, if_pos hname, hpc] at h
        simp at h
      | ok b =>
        cases b with
        | false =>
          have hcp : checksPass cmd msg = false := by simp [checksPass, hpc]
          simp only [runCommands, if_pos hname, hpc] at h ⊢
          rw [ih acc h]
          simp [List.filter_cons, hcp]
        | true =>
          have hcp : checksPass cmd msg = true := by simp [checksPass, hpc]
          cases hfn : cmd.commandFunction.fn msg args with
          | ok u =>
            simp only [runCommands, if_pos hname, hpc, hfn] at h ⊢
            rw [ih _ h]
            simp [List.filter_cons, List.filter_append, hcp, hname, isInvoked]
          | error e =>
            cases heh : eh msg e with
            | ok u =>
              simp only [runCommands, if_pos hname, hpc, hfn, heh] at h ⊢
              rw [ih _ h]
              simp [List.filter_cons, List.filter_append, hcp, hname, isInvoked]
            | error e2 =>
              simp only [runCommands, if_pos hname, hpc, hfn, heh] at h
              simp at h
    · have hcp : (decide (cmd.name = name) && checksPass cmd msg) = false := by
        simp [hname]
      simp only [runCommands, if_neg hname] at h ⊢
      rw [ih acc h]
      simp [List.filter_cons, hcp]

/-- Claim C4: a handler error is caught and routed to the configured
error handler exactly once with the original message and the thrown
error; the default error handler re-throws unchanged; a global check
returning false ends dispatch silently with no invocation of any kind. -/
theorem C4 :
    (∀ (bot : Bot) (msg : Message) (cmd : Command) (e : JSError),
      bot.commands = [cmd] →
      runChecks bot.checks msg = Except.ok true →
      cmd.name = parsedVerb bot.pfx msg.content →
      cmd.performChecks msg = Except.ok true →
      cmd.commandFunction.fn msg (Bot._parseArgs msg.content) = Except.error e →
      (Bot._commandHandler bot msg).1 =
        [Event.invoked cmd.name msg (Bot._parseArgs msg.content),
         Event.errorHandled msg e]) ∧
    (∀ (msg : Message) (e : JSError), defaultErrorHandler msg e = Except.error e) ∧
    (∀ (bot : Bot) (msg : Message),
      runChecks bot.checks msg = Except.ok false →
      Bot._commandHandler bot msg = ([], none)) := by
  refine ⟨?_, fun msg e => rfl, ?_⟩
  · intro bot msg cmd e hcmds hg hname hpc hfn
    simp only [Bot._commandHandler, hg, hcmds]
    simp only [runCommands, if_pos hname, hpc, hfn]
    cases heh : bot.errorHandler msg e with
    | ok u => simp [runCommands, heh]
    | error e2 => simp [heh]
  · intro bot msg hg
    simp [Bot._commandHandler, hg]

/-- Witness for C4: the throwing ping handler leads to exactly one
error-handler invocation carrying the original message and the error. -/
theorem C4_witness :
    (botBoom._commandHandler msgW).1 =
      [Event.invoked "ping" msgW ["x"], Event.errorHandled msgW ⟨"boom"⟩] :=
  C4.1 botBoom msgW cmdBoom ⟨"boom"⟩ rfl rfl (by decide) rfl rfl

/-- Claim C5: an error thrown inside a check is not caught: a throwing
global check makes dispatch end with that error and no events at all,
and a throwing per-command check ends the loop with that error, the
events staying exactly those of the commands before it, whatever
commands follow; in neither case is the error handler invoked with it. -/
theorem C5 :
    (∀ (bot : Bot) (msg : Message) (gpre grest : List Check) (c : Check) (e : JSError),
      bot.checks = gpre ++ c :: grest →
      (∀ c' ∈ gpre, c' msg = Except.ok true) →
      c msg = Except.error e →
      Bot._commandHandler bot msg = ([], some e)) ∧
    (∀ (bot : Bot) (msg : Message) (pre rest : List Command) (cmd : Command) (e : JSError),
      bot.commands = pre ++ cmd :: rest →
      runChecks bot.checks msg = Except.ok true →
      (runCommands bot.errorHandler msg (parsedVerb bot.pfx msg.content)
          (Bot._parseArgs msg.content) pre []).2 = none →
      cmd.name = parsedVerb bot.pfx msg.content →
      cmd.performChecks msg = Except.error e →
      Bot._commandHandler bot msg =
        ((runCommands bot.errorHandler msg (parsedVerb bot.pfx msg.content)
            (Bot._parseArgs msg.content) pre []).1, some e)) := by
  constructor
  · intro bot msg gpre grest c e hch hpre hc
    have hrc : runChecks bot.checks msg = Except.error e := by
      rw [hch, runChecks_prepend_true msg gpre (c :: grest) hpre]
      simp [runChecks, hc]
    simp [Bot._commandHandler, hrc]
  · intro bot msg pre rest cmd e hcmds hg hpre hname hpc
    simp only [Bot._commandHandler, hg, hcmds]
    rw [runCommands_append_of_none bot.errorHandler msg _ _ pre [] (cmd :: rest) hpre]
    simp only [runCommands, if_pos hname, hpc]

/-- Witness for C5: a throwing global check aborts dispatch with the
thrown error and no command invocation. -/
theorem C5_witness : botGThrow._commandHandler msgW = ([], some ⟨"denied"⟩) :=
  C5.1 botGThrow msgW [] [] chkThrow ⟨"denied"⟩ rfl (by simp) rfl

/-- Claim C6: when the global checks pass (and nothing throws), the
handler invocations recorded by dispatch are exactly one per registered
command whose name equals the parsed verb and whose checks return true,
in registration order; two commands that share a name both execute. -/
theorem C6 :
    (∀ (bot : Bot) (msg : Message),
      runChecks bot.checks msg = Except.ok true →
      (Bot._commandHandler bot msg).2 = none →
      (Bot._commandHandler bot msg).1.filter isInvoked =
        (bot.commands.filter (fun c =>
            decide (c.name = parsedVerb bot.pfx msg.content) && checksPass c msg)).map
          (fun c => Event.invoked c.name msg (Bot._parseArgs msg.content))) ∧
    (botDup._commandHandler msgW).1 =
      [Event.invoked "ping" msgW ["x"], Event.invoked "ping" msgW ["x"]] := by
  constructor
  · intro bot msg hg h
    simp only [Bot._commandHandler, hg] at h ⊢
    rw [runCommands_invocations bot.errorHandler msg _ _ bot.commands [] h]
    simp
  · decide

/-- Witness for C6: on the duplicate-name bot the recorded invocations
are exactly the two matching registered commands, in order. -/
theorem C6_witness :
    (botDup._commandHandler msgW).1.filter isInvoked =
      (botDup.commands.filter (fun c =>
          decide (c.name = parsedVerb botDup.pfx msgW.content) && checksPass c msgW)).map
        (fun c => Event.invoked c.name msgW (Bot._parseArgs msgW.content)) :=
  C6.1 botDup msgW rfl (by decide)

end ED
